import Mathlib

/-!
Shallow embedding of the `air` repository (files `air.py` and `merra.py`)
and proofs about its specified behaviour.

Modelling conventions:
* A pandas/xarray cell is `Option ℚ`: `none` models a missing value (NaN/NaT),
  `some q` a concrete numeric value.  Timestamps are encoded as rationals;
  `pd.to_datetime` is modelled as the identity on this encoding (the parse of a
  well-formed timestamp string is injective, and no claim depends on the
  concrete representation of date-times).
* A `DataFrame` is its column-name list together with its rows, each row a
  positional list of cells aligned with the columns.
* File discovery and CSV reading are I/O; `pm` is therefore modelled as a
  function of the list of per-file tables the glob/read loop produces, in
  discovery order.  An empty glob result yields the empty list, on which
  `pd.concat` raises (`ValueError: No objects to concatenate`).
* Errors raised by the Python code (KeyError, ValueError) are `Except.error`.
-/

namespace AirRepo

abbrev Cell := Option ℚ

structure DataFrame where
  columns : List String
  rows : List (List Cell)
deriving DecidableEq

/-- Cell of `row` in the column named `c` (first occurrence, as pandas column
lookup on uniquely-named columns); `none` when the column is absent or the
row is too short. -/
def cellAt (cols : List String) (row : List Cell) (c : String) : Cell :=
  match cols.findIdx? (· == c) with
  | some i => row.getD i none
  | none => none

/-- Columns of `pd.concat(df_list, ignore_index=True)`: the union of the
input frames' columns in order of first appearance. -/
def concatColumns (dfs : List DataFrame) : List String :=
  (dfs.flatMap (·.columns)).eraseDups

/-- Reindex one row of `df` onto the combined column list, filling absent
columns with NaN, as `pd.concat` does. -/
def alignRow (cols : List String) (df : DataFrame) (row : List Cell) : List Cell :=
  cols.map fun c =>
    match df.columns.findIdx? (· == c) with
    | some i => row.getD i none
    | none => none

/-- Embeds `pd.concat(df_list, ignore_index=True)`. -/
def concatDFs (dfs : List DataFrame) : DataFrame :=
  let cols := concatColumns dfs
  ⟨cols, dfs.flatMap fun df => df.rows.map (alignRow cols df)⟩

/-- The fixed metadata drop list of `pm` (air.py line 56). -/
def drop_cols : List String :=
  ["location_id", "sensors_id", "lat", "lon", "parameter", "units", "location"]

/-- Keep only the cells of `row` whose column name satisfies `keep`,
positionally aligned with `cols.filter keep`. -/
def restrictRow (keep : String → Bool) (cols : List String) (row : List Cell) :
    List Cell :=
  ((cols.zip row).filter fun p => keep p.1).map Prod.snd

/-- Embeds `df.drop(columns=drop_cols)`: pandas raises `KeyError` when any listed
column is absent (default `errors='raise'`). -/
def dropColumns (df : DataFrame) : Except String DataFrame :=
  if drop_cols.all (fun c => df.columns.contains c) then
    .ok ⟨df.columns.filter (fun c => !(drop_cols.contains c)),
         df.rows.map (restrictRow (fun c => !(drop_cols.contains c)) df.columns)⟩
  else
    .error "KeyError: drop columns not found"

/-- Row predicate of `df[df['value'] <op> bound]`: NaN compares false and the
row is removed. -/
def valueKeep (cols : List String) (p : ℚ → Bool) (row : List Cell) : Bool :=
  match cellAt cols row "value" with
  | some q => p q
  | none => false

/-- Embeds `df[df['value'] <op> bound]`: raises `KeyError` when the `value` column is
absent, otherwise keeps exactly the rows whose value satisfies `p`. -/
def filterValue (df : DataFrame) (p : ℚ → Bool) : Except String DataFrame :=
  if df.columns.contains "value" then
    .ok ⟨df.columns, df.rows.filter (valueKeep df.columns p)⟩
  else
    .error "KeyError: value"

/-- One step of forward filling: a missing cell takes the carried last-seen
value of its column, a present cell is kept. -/
def ffillRow (lasts row : List Cell) : List Cell :=
  List.zipWith (fun l c => match c with | some q => some q | none => l) lasts row

/-- Top-down scan of `df.ffill()`, carrying the last non-missing value seen in
each column. -/
def ffillGo : List Cell → List (List Cell) → List (List Cell)
  | _, [] => []
  | lasts, r :: rs =>
    let r2 := ffillRow lasts r
    r2 :: ffillGo r2 rs

/-- Embeds `df.ffill(inplace=True)`. -/
def ffillDF (df : DataFrame) : DataFrame :=
  ⟨df.columns, ffillGo (df.columns.map fun _ => none) df.rows⟩

/-- Embeds `df.rename(columns={'value': 'pm2.5'})`. -/
def renameValue (df : DataFrame) : DataFrame :=
  ⟨df.columns.map (fun c => if c == "value" then "pm2.5" else c), df.rows⟩

/-- The table `pm` returns: the datetime index plus the remaining columns. -/
structure PMResult where
  index : List Cell
  columns : List String
  rows : List (List Cell)
deriving DecidableEq

/-- Embeds `df['datetime'] = pd.to_datetime(df['datetime']); df.set_index('datetime')`:
raises `KeyError` when the column is absent; the parsed datetime column becomes
the index and leaves the column set. -/
def setIndex (df : DataFrame) : Except String PMResult :=
  if df.columns.contains "datetime" then
    .ok ⟨df.rows.map (fun row => cellAt df.columns row "datetime"),
         df.columns.filter (fun c => !(c == "datetime")),
         df.rows.map (restrictRow (fun c => !(c == "datetime")) df.columns)⟩
  else
    .error "KeyError: datetime"

/-- Embeds `pm(path, drop)` (air.py lines 46-68), as a function of the list of
per-file tables read by the glob loop; a raised exception propagates out of
the call as the error branch. -/
def pm (dfs : List DataFrame) (drop : Bool) : Except String PMResult :=
  if dfs.isEmpty then .error "ValueError: No objects to concatenate"
  else
    match (if drop then dropColumns (concatDFs dfs) else .ok (concatDFs dfs)) with
    | .error e => .error e
    | .ok df1 =>
      match filterValue df1 (fun q => decide (0 < q)) with
      | .error e => .error e
      | .ok df2 =>
        match filterValue df2 (fun q => decide (q < 900)) with
        | .error e => .error e
        | .ok df3 => setIndex (renameValue (ffillDF df3))

/-- The rows of `df` that pass both range filters of `pm`, in order: the rows
whose `value` cell is strictly between 0 and 900. -/
def survivorRows (df : DataFrame) : List (List Cell) :=
  (df.rows.filter (valueKeep df.columns fun q => decide (0 < q))).filter
    (valueKeep df.columns fun q => decide (q < 900))

/-- Rectangularity: every row has exactly one cell per column. -/
def RectDF (df : DataFrame) : Prop :=
  ∀ r ∈ df.rows, r.length = df.columns.length

/-- Concrete input: one file whose single reading is valid. -/
def dfOneValid : DataFrame := ⟨["datetime", "value"], [[some 1, some 100]]⟩

/-- Concrete input: one file with a reading of -5 (out of range) between two
valid readings, at timestamps 1, 2, 3. -/
def dfMidInvalid : DataFrame :=
  ⟨["datetime", "value"],
   [[some 1, some 100], [some 2, some (-5)], [some 3, some 300]]⟩

/-- Concrete input: two valid readings where the metadata column `units` is
missing (NaN) in the second row. -/
def dfUnitsGap : DataFrame :=
  ⟨["datetime", "value", "units"],
   [[some 1, some 100, some 7], [some 2, some 200, none]]⟩

end AirRepo

namespace MerraRepo

/-!
Embedding of `merra.py`.  A gridded dataset is its `lat` and `lon` coordinate
axes together with named variables; a variable's data is indexed
`data[t][i][j]` with `t` over time, `i` over `lat` and `j` over `lon`.
Cells are `Option ℚ` as in the tabular model (`none` = NaN).

Geometries (shapely polygons) are modelled as finite unions of rectangles.
`Geom.containsPt` embeds shapely's `contains` applied to a `Point`: the point
lies in the geometry's interior, so a rectangle contains exactly the points
strictly between its bounds, and the empty geometry (the result of
`union_all` on an empty or all-empty collection) contains nothing.  The union
is modelled as the disjunction of the parts' interiors; for components that
share only boundary this understates the union's interior on that shared
boundary, a degenerate configuration no claim exercises. -/

abbrev Cell := Option ℚ

structure Dataset where
  lat : List ℚ
  lon : List ℚ
  vars : List (String × List (List (List Cell)))
deriving DecidableEq

inductive Geom where
  | rect (x1 y1 x2 y2 : ℚ)
  | union (g h : Geom)
  | empty
deriving DecidableEq

/-- Shapely `geom.contains(Point(x, y))`: strict-interior containment.
Points are `(x, y) = (lon, lat)`, matching `Point(p)` for
`p = (lon_grid, lat_grid)` in `mean_polygon`. -/
def Geom.containsPt : Geom → ℚ × ℚ → Bool
  | .rect x1 y1 x2 y2, (x, y) =>
    decide (x1 < x) && decide (x < x2) && decide (y1 < y) && decide (y < y2)
  | .union g h, p => g.containsPt p || h.containsPt p
  | .empty, _ => false

/-- Embeds `shapefile.geometry.union_all()`: the union of all shapes; on an empty
collection shapely returns `GEOMETRYCOLLECTION EMPTY`. -/
def union_all (shapes : List Geom) : Geom :=
  shapes.foldl .union .empty

/-- The mask-and-select step `ds[variable].where(mask)` at one grid cell:
the cell's value where the grid point is contained, NaN elsewhere. -/
def maskedCellAt (g : Geom) (la lo : ℚ) (c : Cell) : Cell :=
  if g.containsPt (lo, la) then c else none

/-- One time slice of `ds[variable].where(mask)`, flattened over the lat × lon
grid (the mean is invariant under this flattening). -/
def maskedSlice (g : Geom) (lat lon : List ℚ) (slice : List (List Cell)) :
    List Cell :=
  (lat.zip slice).flatMap fun p =>
    (lon.zip p.2).map fun q => maskedCellAt g p.1 q.1 q.2

/-- xarray `.mean` with default `skipna=True`: the mean of the non-missing
cells, NaN when every cell is missing. -/
def meanCells (cells : List Cell) : Cell :=
  let vs := cells.filterMap id
  if vs.isEmpty then none else some (vs.sum / (vs.length : ℚ))

/-- Embeds `mean_polygon(ds, variable, shapefile)` (merra.py lines 58-89):
`ds[variable]` raises `KeyError` when the variable is absent; otherwise the
polygon mask is applied and the masked mean over lat/lon is taken per time
step. -/
def mean_polygon (ds : Dataset) (varName : String) (shapes : List Geom) :
    Except String (List Cell) :=
  match ds.vars.lookup varName with
  | none => .error ("KeyError: " ++ varName)
  | some data =>
    let polygon := union_all shapes
    .ok (data.map fun slice => meanCells (maskedSlice polygon ds.lat ds.lon slice))

/-- Index of the axis value nearest to `t` (`sel(..., method='nearest')`);
scans left to right keeping the strictly closest value, so an exact-distance
tie keeps the earlier index (no claim exercises a tie, and the spec leaves the
tie-break implementation-defined). -/
def nearestIdxGo : List ℚ → ℚ → ℕ → ℕ → ℚ → ℕ
  | [], _, _, best, _ => best
  | x :: xs, t, i, best, bestd =>
    if |x - t| < bestd then nearestIdxGo xs t (i + 1) i |x - t|
    else nearestIdxGo xs t (i + 1) best bestd

def nearestIdx (axis : List ℚ) (t : ℚ) : Option ℕ :=
  match axis with
  | [] => none
  | x :: xs => some (nearestIdxGo xs t 1 0 |x - t|)

/-- The dataset restricted to one grid cell, as returned by `grid_data`:
the matched coordinates and every variable's time series there. -/
structure PointResult where
  lat : ℚ
  lon : ℚ
  vars : List (String × List Cell)
deriving DecidableEq

/-- Embeds `grid_data(ds, lat_target, lon_target)` (merra.py lines 93-112):
`ds['lat'].sel(lat=lat_target, method='nearest')` picks the nearest latitude,
independently `ds['lon'].sel(...)` the nearest longitude, and the dataset is
selected at exactly that grid cell.  Selecting on an empty axis fails. -/
def grid_data (ds : Dataset) (lat_target lon_target : ℚ) :
    Except String PointResult :=
  match nearestIdx ds.lat lat_target, nearestIdx ds.lon lon_target with
  | some i, some j =>
    .ok ⟨ds.lat.getD i 0, ds.lon.getD j 0,
         ds.vars.map fun nd =>
           (nd.1, nd.2.map fun slice => (slice.getD i []).getD j none)⟩
  | _, _ => .error "KeyError: lat/lon"

/-- The unmasked spatial mean of one time slice,
`ds[variable].mean(dim=['lat','lon'])` with no mask applied. -/
def spatialMeanSlice (slice : List (List Cell)) : Cell :=
  meanCells (slice.flatMap id)

/-- The unmasked spatial mean per time step. -/
def spatialMean (data : List (List (List Cell))) : List Cell :=
  data.map spatialMeanSlice

/-- The point `p` lies on the boundary of the rectangle: within its closed
bounds and on one of its four edges. -/
def onRectBoundary (x1 y1 x2 y2 : ℚ) (p : ℚ × ℚ) : Prop :=
  x1 ≤ p.1 ∧ p.1 ≤ x2 ∧ y1 ≤ p.2 ∧ p.2 ≤ y2 ∧
    (p.1 = x1 ∨ p.1 = x2 ∨ p.2 = y1 ∨ p.2 = y2)

/-- Concrete 3 × 3 dataset with one variable, for the nearest-point scenario. -/
def dsGrid3 : Dataset :=
  ⟨[10, 20, 30], [10, 20, 30],
   [("T", [[[some 1, some 2, some 3],
            [some 4, some 5, some 6],
            [some 7, some 8, some 9]]])]⟩

/-- Concrete single-cell dataset at (lat, lon) = (10, 10). -/
def dsCell10 : Dataset := ⟨[10], [10], [("T", [[[some 3]]])]⟩

/-- Concrete single-cell dataset at (lat, lon) = (0, 0). -/
def dsCell0 : Dataset := ⟨[0], [0], [("v", [[[some 3]]])]⟩

/-- Concrete 2 × 2 dataset with one time step. -/
def dsGrid2 : Dataset :=
  ⟨[10, 20], [10, 20], [("T", [[[some 1, some 2], [some 3, some 5]]])]⟩

end MerraRepo

namespace AirRepo

theorem cellAt_nil (cols : List String) (c : String) : cellAt cols [] c = none := by
  unfold cellAt
  cases h : cols.findIdx? (· == c) <;> simp

theorem cellAt_cons (c0 : String) (cs : List String) (r0 : Cell) (rs : List Cell)
    (c : String) :
    cellAt (c0 :: cs) (r0 :: rs) c = if c0 == c then r0 else cellAt cs rs c := by
  unfold cellAt
  rw [List.findIdx?_cons, List.findIdx?_succ]
  by_cases h : (c0 == c) = true
  · simp [h]
  · simp only [h, Bool.false_eq_true, if_false]
    cases cs.findIdx? (· == c) <;> simp

theorem restrictRow_nil (keep : String → Bool) (row : List Cell) :
    restrictRow keep [] row = [] := rfl

theorem restrictRow_cons (keep : String → Bool) (c0 : String) (cs : List String)
    (r0 : Cell) (rs : List Cell) :
    restrictRow keep (c0 :: cs) (r0 :: rs) =
      if keep c0 then r0 :: restrictRow keep cs rs else restrictRow keep cs rs := by
  unfold restrictRow
  rw [List.zip_cons_cons, List.filter_cons]
  by_cases h : keep c0 <;> simp [h]

theorem restrictRow_length (keep : String → Bool) :
    ∀ (cols : List String) (row : List Cell), row.length = cols.length →
      (restrictRow keep cols row).length = (cols.filter keep).length := by
  intro cols
  induction cols with
  | nil => intro row _; simp [restrictRow]
  | cons c0 cs ih =>
    intro row h
    cases row with
    | nil => simp at h
    | cons r0 rs =>
      have hlen : rs.length = cs.length := by simpa using h
      rw [restrictRow_cons, List.filter_cons]
      by_cases hk : keep c0 <;> simp [hk, ih rs hlen]

theorem cellAt_restrictRow (keep : String → Bool) :
    ∀ (cols : List String) (row : List Cell), row.length = cols.length →
      ∀ c, keep c = true →
      cellAt (cols.filter keep) (restrictRow keep cols row) c = cellAt cols row c := by
  intro cols
  induction cols with
  | nil => intro row _ c _; simp [restrictRow, cellAt]
  | cons c0 cs ih =>
    intro row h c hc
    cases row with
    | nil => simp at h
    | cons r0 rs =>
      have hlen : rs.length = cs.length := by simpa using h
      rw [restrictRow_cons, List.filter_cons]
      by_cases hk : keep c0
      · simp only [hk, if_true]
        rw [cellAt_cons, cellAt_cons]
        by_cases he : (c0 == c) = true
        · simp [he]
        · simp only [he, Bool.false_eq_true, if_false]
          exact ih rs hlen c hc
      · have hne : (c0 == c) = false := by
          cases h1 : (c0 == c) with
          | false => rfl
          | true =>
            have hcc : c0 = c := eq_of_beq h1
            rw [hcc, hc] at hk
            exact absurd rfl hk
        simp only [hk, Bool.false_eq_true, if_false]
        rw [cellAt_cons, hne]
        simp only [Bool.false_eq_true, if_false]
        exact ih rs hlen c hc

theorem findIdx_congr (p q : String → Bool) :
    ∀ (cols : List String), (∀ x ∈ cols, p x = q x) →
      List.findIdx? p cols = List.findIdx? q cols := by
  intro cols
  induction cols with
  | nil => intro _; rfl
  | cons c0 cs ih =>
    intro h
    rw [List.findIdx?_cons, List.findIdx?_cons, h c0 (List.mem_cons_self _ _),
      List.findIdx?_succ, List.findIdx?_succ,
      ih (fun x hx => h x (List.mem_cons_of_mem _ hx))]

theorem findIdx_renamed_value (cols : List String) (hp : "pm2.5" ∉ cols) :
    List.findIdx? (· == "pm2.5")
        (cols.map fun c0 => if c0 == "value" then "pm2.5" else c0) =
      List.findIdx? (· == "value") cols := by
  rw [List.findIdx?_map]
  apply findIdx_congr
  intro x hx
  by_cases hv : (x == "value") = true
  · simp [Function.comp, hv]
  · have hxp : x ≠ "pm2.5" := fun he => hp (he ▸ hx)
    simp only [Function.comp_apply, hv, Bool.false_eq_true, if_false]
    rw [beq_eq_false_iff_ne.mpr hxp]

theorem findIdx_renamed_other (cols : List String) (c : String)
    (hv : c ≠ "value") (hp : c ≠ "pm2.5") :
    List.findIdx? (· == c)
        (cols.map fun c0 => if c0 == "value" then "pm2.5" else c0) =
      List.findIdx? (· == c) cols := by
  rw [List.findIdx?_map]
  apply findIdx_congr
  intro x _
  by_cases hx : (x == "value") = true
  · have hxv : x = "value" := eq_of_beq hx
    simp only [Function.comp_apply, hx, if_true]
    rw [beq_eq_false_iff_ne.mpr (Ne.symm hp), beq_eq_false_iff_ne.mpr (hxv ▸ Ne.symm hv)]
  · simp [Function.comp, hx]

theorem cellAt_renamed_value (cols : List String) (row : List Cell)
    (hp : "pm2.5" ∉ cols) :
    cellAt (cols.map fun c0 => if c0 == "value" then "pm2.5" else c0) row "pm2.5" =
      cellAt cols row "value" := by
  unfold cellAt
  rw [findIdx_renamed_value cols hp]

theorem cellAt_renamed_other (cols : List String) (row : List Cell) (c : String)
    (hv : c ≠ "value") (hp : c ≠ "pm2.5") :
    cellAt (cols.map fun c0 => if c0 == "value" then "pm2.5" else c0) row c =
      cellAt cols row c := by
  unfold cellAt
  rw [findIdx_renamed_other cols c hv hp]

theorem getD_some_lt {l : List Cell} {i : ℕ} {q : ℚ} (h : l.getD i none = some q) :
    i < l.length := by
  by_contra hx
  rw [List.getD_eq_getElem?_getD, List.getElem?_eq_none (by omega)] at h
  simp at h

theorem ffillRow_length (lasts row : List Cell) :
    (ffillRow lasts row).length = lasts.length ⊓ row.length :=
  List.length_zipWith _ _ _

theorem ffillRow_getD_some (lasts row : List Cell) (i : ℕ) (hi : i < lasts.length)
    (q : ℚ) (h : row.getD i none = some q) :
    (ffillRow lasts row).getD i none = some q := by
  have hr : i < row.length := getD_some_lt h
  have hz : i < (ffillRow lasts row).length := by
    rw [ffillRow_length]; exact lt_inf_iff.mpr ⟨hi, hr⟩
  rw [List.getD_eq_getElem _ _ hz]
  rw [List.getD_eq_getElem _ _ hr] at h
  unfold ffillRow
  rw [List.getElem_zipWith, h]

theorem ffillRow_getD_src (lasts row : List Cell) (i : ℕ) (q : ℚ)
    (h : (ffillRow lasts row).getD i none = some q) :
    row.getD i none = some q ∨ lasts.getD i none = some q := by
  have hz : i < (ffillRow lasts row).length := getD_some_lt h
  have hlr : i < lasts.length ∧ i < row.length := by
    rw [ffillRow_length] at hz; exact lt_inf_iff.mp hz
  rw [List.getD_eq_getElem _ _ hz] at h
  unfold ffillRow at h
  rw [List.getElem_zipWith] at h
  cases hc : row[i] with
  | some q' =>
    left
    rw [hc] at h
    rw [List.getD_eq_getElem _ _ hlr.2, hc]
    simp at h
    simp [h]
  | none =>
    right
    rw [hc] at h
    rw [List.getD_eq_getElem _ _ hlr.1]
    simp at h
    exact h

theorem getD_map_none (l : List String) (i : ℕ) :
    (l.map fun _ => (none : Cell)).getD i none = none := by
  rw [List.getD_eq_getElem?_getD]
  cases h : (l.map fun _ => (none : Cell))[i]? with
  | none => rfl
  | some c =>
    have := List.getElem?_mem h
    simp only [List.mem_map] at this
    obtain ⟨_, _, hc⟩ := this
    rw [← hc]
    rfl

theorem ffillGo_cons (lasts r : List Cell) (rs : List (List Cell)) :
    ffillGo lasts (r :: rs) = ffillRow lasts r :: ffillGo (ffillRow lasts r) rs := rfl

theorem ffillGo_getD (n : ℕ) :
    ∀ (rows : List (List Cell)) (lasts : List Cell) (k i : ℕ) (q : ℚ),
      lasts.length = n → (∀ r ∈ rows, r.length = n) →
      (rows.getD k []).getD i none = some q →
      ((ffillGo lasts rows).getD k []).getD i none = some q := by
  intro rows
  induction rows with
  | nil => intro lasts k i q _ _ h; simp at h
  | cons r rs ih =>
    intro lasts k i q hl hr h
    rw [ffillGo_cons]
    cases k with
    | zero =>
      rw [List.getD_cons_zero] at h ⊢
      have hi : i < lasts.length := by
        rw [hl, ← hr r (List.mem_cons_self _ _)]
        exact getD_some_lt h
      exact ffillRow_getD_some lasts r i hi q h
    | succ k' =>
      rw [List.getD_cons_succ] at h ⊢
      apply ih (ffillRow lasts r) k' i q _ _ h
      · rw [ffillRow_length, hl, hr r (List.mem_cons_self _ _)]
        simp
      · intro r' hr'
        exact hr r' (List.mem_cons_of_mem _ hr')

theorem ffillGo_mem (n : ℕ) :
    ∀ (rows : List (List Cell)) (lasts : List Cell),
      lasts.length = n → (∀ r ∈ rows, r.length = n) →
      ∀ r' ∈ ffillGo lasts rows, r'.length = n ∧
        ∃ r ∈ rows, ∀ i q, r.getD i none = some q → r'.getD i none = some q := by
  intro rows
  induction rows with
  | nil => intro lasts _ _ r' h; simp [ffillGo] at h
  | cons r rs ih =>
    intro lasts hl hr r' hmem
    rw [ffillGo_cons] at hmem
    have hrn : r.length = n := hr r (List.mem_cons_self _ _)
    have hl2 : (ffillRow lasts r).length = n := by
      rw [ffillRow_length, hl, hrn]; simp
    cases List.mem_cons.mp hmem with
    | inl he =>
      subst he
      refine ⟨hl2, r, List.mem_cons_self _ _, ?_⟩
      intro i q h
      have hi : i < lasts.length := by
        rw [hl, ← hrn]; exact getD_some_lt h
      exact ffillRow_getD_some lasts r i hi q h
    | inr ht =>
      obtain ⟨hlen, rr, hrr, hpre⟩ :=
        ih (ffillRow lasts r) hl2 (fun x hx => hr x (List.mem_cons_of_mem _ hx)) r' ht
      exact ⟨hlen, rr, List.mem_cons_of_mem _ hrr, hpre⟩

theorem ffillGo_some_src :
    ∀ (rows : List (List Cell)) (lasts : List Cell) (r' : List Cell),
      r' ∈ ffillGo lasts rows → ∀ i q, r'.getD i none = some q →
      (∃ r ∈ rows, r.getD i none = some q) ∨ lasts.getD i none = some q := by
  intro rows
  induction rows with
  | nil => intro lasts r' h; simp [ffillGo] at h
  | cons r rs ih =>
    intro lasts r' hmem i q h
    rw [ffillGo_cons] at hmem
    cases List.mem_cons.mp hmem with
    | inl he =>
      subst he
      cases ffillRow_getD_src lasts r i q h with
      | inl hsrc => exact Or.inl ⟨r, List.mem_cons_self _ _, hsrc⟩
      | inr hsrc => exact Or.inr hsrc
    | inr ht =>
      cases ih (ffillRow lasts r) r' ht i q h with
      | inl hsrc =>
        obtain ⟨rr, hrr, hq⟩ := hsrc
        exact Or.inl ⟨rr, List.mem_cons_of_mem _ hrr, hq⟩
      | inr hsrc =>
        cases ffillRow_getD_src lasts r i q hsrc with
        | inl h2 => exact Or.inl ⟨r, List.mem_cons_self _ _, h2⟩
        | inr h2 => exact Or.inr h2

theorem concat_rect (dfs : List DataFrame) : RectDF (concatDFs dfs) := by
  intro r hr
  unfold concatDFs at hr ⊢
  simp only [List.mem_flatMap, List.mem_map] at hr
  obtain ⟨df, _, row, _, hal⟩ := hr
  rw [← hal]
  simp [alignRow]

theorem filterValue_ok {df df' : DataFrame} {p : ℚ → Bool}
    (h : filterValue df p = .ok df') :
    df.columns.contains "value" = true ∧ df'.columns = df.columns ∧
      df'.rows = df.rows.filter (valueKeep df.columns p) := by
  unfold filterValue at h
  by_cases hc : df.columns.contains "value" = true
  · rw [if_pos hc] at h
    injection h with h2
    rw [← h2]
    exact ⟨hc, rfl, rfl⟩
  · rw [if_neg hc] at h
    exact absurd h (by simp)

theorem dropColumns_ok {df df' : DataFrame} (h : dropColumns df = .ok df') :
    drop_cols.all (fun c => df.columns.contains c) = true ∧
      df'.columns = df.columns.filter (fun c => !(drop_cols.contains c)) ∧
      df'.rows =
        df.rows.map (restrictRow (fun c => !(drop_cols.contains c)) df.columns) := by
  unfold dropColumns at h
  by_cases hc : drop_cols.all (fun c => df.columns.contains c) = true
  · rw [if_pos hc] at h
    injection h with h2
    rw [← h2]
    exact ⟨hc, rfl, rfl⟩
  · rw [if_neg hc] at h
    exact absurd h (by simp)

theorem dropColumns_err {df : DataFrame}
    (h : drop_cols.all (fun c => df.columns.contains c) = false) :
    dropColumns df = .error "KeyError: drop columns not found" := by
  unfold dropColumns
  have hne : ¬(drop_cols.all (fun c => df.columns.contains c) = true) := by
    rw [h]; exact Bool.false_ne_true
  rw [if_neg hne]

theorem setIndex_ok {df : DataFrame} {res : PMResult} (h : setIndex df = .ok res) :
    df.columns.contains "datetime" = true ∧
      res.index = df.rows.map (fun row => cellAt df.columns row "datetime") ∧
      res.columns = df.columns.filter (fun c => !(c == "datetime")) ∧
      res.rows = df.rows.map (restrictRow (fun c => !(c == "datetime")) df.columns) := by
  unfold setIndex at h
  by_cases hc : df.columns.contains "datetime" = true
  · rw [if_pos hc] at h
    injection h with h2
    rw [← h2]
    exact ⟨hc, rfl, rfl, rfl⟩
  · rw [if_neg hc] at h
    exact absurd h (by simp)

theorem pm_ok_parts {dfs : List DataFrame} {drop : Bool} {res : PMResult}
    (h : pm dfs drop = .ok res) :
    ∃ df1 : DataFrame,
      (if drop then dropColumns (concatDFs dfs) else .ok (concatDFs dfs)) = .ok df1 ∧
      df1.columns.contains "value" = true ∧
      setIndex (renameValue (ffillDF ⟨df1.columns, survivorRows df1⟩)) = .ok res := by
  unfold pm at h
  by_cases hne : dfs.isEmpty = true
  · rw [if_pos hne] at h
    exact absurd h (by simp)
  · rw [if_neg hne] at h
    cases hd : (if drop then dropColumns (concatDFs dfs) else .ok (concatDFs dfs)) with
    | error e => rw [hd] at h; exact absurd h (by simp)
    | ok df1 =>
      rw [hd] at h
      simp only at h
      cases h2 : filterValue df1 (fun q => decide (0 < q)) with
      | error e => rw [h2] at h; exact absurd h (by simp)
      | ok df2 =>
        rw [h2] at h
        simp only at h
        cases h3 : filterValue df2 (fun q => decide (q < 900)) with
        | error e => rw [h3] at h; exact absurd h (by simp)
        | ok df3 =>
          rw [h3] at h
          simp only at h
          obtain ⟨hv2, hc2, hr2⟩ := filterValue_ok h2
          obtain ⟨hv3, hc3, hr3⟩ := filterValue_ok h3
          refine ⟨df1, rfl, hv2, ?_⟩
          have hdf3 : df3 = ⟨df1.columns, survivorRows df1⟩ := by
            obtain ⟨c3, r3⟩ := df3
            simp only at hc3 hr3
            unfold survivorRows
            rw [hc3, hr3, hr2, hc2]
          rw [← hdf3]
          exact h

theorem valueKeep_spec {cols : List String} {r : List Cell} {p : ℚ → Bool}
    (h : valueKeep cols p r = true) :
    ∃ q, cellAt cols r "value" = some q ∧ p q = true := by
  unfold valueKeep at h
  cases hc : cellAt cols r "value" with
  | none => rw [hc] at h; exact absurd h (by simp)
  | some q => rw [hc] at h; exact ⟨q, rfl, h⟩

theorem dropColumns_rect {df df' : DataFrame} (h : dropColumns df = .ok df')
    (hr : RectDF df) : RectDF df' := by
  obtain ⟨_, hc, hrw⟩ := dropColumns_ok h
  intro r hrm
  rw [hrw] at hrm
  obtain ⟨r0, hr0, hres⟩ := List.mem_map.mp hrm
  rw [← hres, hc]
  exact restrictRow_length _ df.columns r0 (hr r0 hr0)

theorem survivorRows_sub {df : DataFrame} {r : List Cell} (h : r ∈ survivorRows df) :
    r ∈ df.rows ∧
      valueKeep df.columns (fun q => decide (0 < q)) r = true ∧
      valueKeep df.columns (fun q => decide (q < 900)) r = true := by
  unfold survivorRows at h
  have h2 := List.mem_filter.mp h
  have h1 := List.mem_filter.mp h2.1
  exact ⟨h1.1, h1.2, h2.2⟩

/-- The `value` cell of every surviving row is present and strictly between
0 and 900. -/
theorem survivorRows_value {df : DataFrame} {r : List Cell}
    (h : r ∈ survivorRows df) :
    ∃ q, cellAt df.columns r "value" = some q ∧ 0 < q ∧ q < 900 := by
  obtain ⟨_, h1, h2⟩ := survivorRows_sub h
  obtain ⟨q, hq, hp1⟩ := valueKeep_spec h1
  obtain ⟨q', hq', hp2⟩ := valueKeep_spec h2
  rw [hq] at hq'
  injection hq' with he
  refine ⟨q, hq, of_decide_eq_true hp1, ?_⟩
  rw [he]
  exact of_decide_eq_true hp2

theorem findIdx_some_of_mem {cols : List String} {c : String} (h : c ∈ cols) :
    ∃ i, cols.findIdx? (· == c) = some i := by
  cases hfi : cols.findIdx? (· == c) with
  | some i => exact ⟨i, rfl⟩
  | none =>
    exfalso
    have := List.findIdx?_eq_none_iff.mp hfi c h
    simp at this

theorem valueKeep_range {cols : List String} {r : List Cell}
    (h1 : valueKeep cols (fun q => decide (0 < q)) r = true)
    (h2 : valueKeep cols (fun q => decide (q < 900)) r = true) :
    ∃ q, cellAt cols r "value" = some q ∧ 0 < q ∧ q < 900 := by
  obtain ⟨q, hq, hp1⟩ := valueKeep_spec h1
  obtain ⟨q', hq', hp2⟩ := valueKeep_spec h2
  rw [hq] at hq'
  injection hq' with he
  refine ⟨q, hq, of_decide_eq_true hp1, ?_⟩
  rw [he]
  exact of_decide_eq_true hp2

theorem ffillGo_length :
    ∀ (rows : List (List Cell)) (lasts : List Cell),
      (ffillGo lasts rows).length = rows.length := by
  intro rows
  induction rows with
  | nil => intro lasts; rfl
  | cons r rs ih =>
    intro lasts
    rw [ffillGo_cons, List.length_cons, List.length_cons, ih]

theorem getD_map_rows (f : List Cell → List Cell) (l : List (List Cell)) (k : ℕ)
    (hk : k < l.length) : (l.map f).getD k [] = f (l.getD k []) := by
  rw [List.getD_eq_getElem _ _ (by simpa using hk), List.getD_eq_getElem _ _ hk,
    List.getElem_map]

/-- Structure of the `pm` pipeline after the filters: `df1` is the table the
filters run on, and the result is the set-index of the renamed forward-filled
survivor table. -/
theorem pm_ok_df1 {dfs : List DataFrame} {drop : Bool} {res : PMResult}
    (h : pm dfs drop = .ok res) :
    ∃ df1 : DataFrame,
      ((drop = false ∧ df1 = concatDFs dfs) ∨
        (drop = true ∧ dropColumns (concatDFs dfs) = .ok df1)) ∧
      df1.columns.contains "value" = true ∧
      setIndex (renameValue (ffillDF ⟨df1.columns, survivorRows df1⟩)) = .ok res := by
  obtain ⟨df1, hd, hv, hsi⟩ := pm_ok_parts h
  refine ⟨df1, ?_, hv, hsi⟩
  cases drop with
  | false =>
    rw [if_neg Bool.false_ne_true] at hd
    injection hd with hd1
    exact Or.inl ⟨rfl, hd1.symm⟩
  | true =>
    rw [if_pos rfl] at hd
    exact Or.inr ⟨rfl, hd⟩

theorem pm_df1_columns_sub {dfs : List DataFrame} {df1 : DataFrame}
    (hd : df1 = concatDFs dfs ∨ dropColumns (concatDFs dfs) = .ok df1) :
    ∀ c, c ∈ df1.columns → c ∈ (concatDFs dfs).columns := by
  intro c hc
  cases hd with
  | inl hl => rw [hl] at hc; exact hc
  | inr hr =>
    obtain ⟨_, hcols, _⟩ := dropColumns_ok hr
    rw [hcols] at hc
    exact List.mem_of_mem_filter hc

theorem pm_df1_rect {dfs : List DataFrame} {df1 : DataFrame}
    (hd : df1 = concatDFs dfs ∨ dropColumns (concatDFs dfs) = .ok df1) :
    RectDF df1 := by
  cases hd with
  | inl hl => rw [hl]; exact concat_rect dfs
  | inr hr => exact dropColumns_rect hr (concat_rect dfs)

end AirRepo

namespace MerraRepo

theorem meanCells_none {cells : List Cell} (h : ∀ c ∈ cells, c = none) :
    meanCells cells = none := by
  unfold meanCells
  have : cells.filterMap id = [] := List.filterMap_eq_nil_iff.mpr h
  rw [this]
  rfl

theorem meanCells_cons_none (rest : List Cell) :
    meanCells (none :: rest) = meanCells rest := by
  unfold meanCells
  rw [List.filterMap_cons_none rfl]

theorem maskedSlice_all_none {g : Geom} {lat lon : List ℚ}
    (slice : List (List Cell))
    (hno : ∀ la ∈ lat, ∀ lo ∈ lon, g.containsPt (lo, la) = false) :
    ∀ c ∈ maskedSlice g lat lon slice, c = none := by
  intro c hc
  unfold maskedSlice at hc
  simp only [List.mem_flatMap, List.mem_map] at hc
  obtain ⟨p, hp, q, hq, hcell⟩ := hc
  have hla : p.1 ∈ lat := (List.of_mem_zip hp).1
  have hlo : q.1 ∈ lon := (List.of_mem_zip hq).1
  rw [← hcell]
  unfold maskedCellAt
  rw [hno p.1 hla q.1 hlo]
  simp

theorem mean_polygon_outside_aux {ds : Dataset} {v : String}
    {data : List (List (List Cell))} {shapes : List Geom}
    (hv : ds.vars.lookup v = some data)
    (hno : ∀ la ∈ ds.lat, ∀ lo ∈ ds.lon,
      (union_all shapes).containsPt (lo, la) = false) :
    mean_polygon ds v shapes = .ok (data.map fun _ => none) := by
  unfold mean_polygon
  rw [hv]
  simp only []
  congr 1
  apply List.map_congr_left
  intro slice _
  exact meanCells_none (maskedSlice_all_none slice hno)

theorem foldl_union_contains_false :
    ∀ (shapes : List Geom) (acc : Geom) (p : ℚ × ℚ),
      acc.containsPt p = false → (∀ g ∈ shapes, g = Geom.empty) →
      (shapes.foldl Geom.union acc).containsPt p = false := by
  intro shapes
  induction shapes with
  | nil => intro acc p hacc _; exact hacc
  | cons g gs ih =>
    intro acc p hacc hsh
    rw [List.foldl_cons]
    apply ih _ p _ (fun x hx => hsh x (List.mem_cons_of_mem _ hx))
    have hg : g = Geom.empty := hsh g (List.mem_cons_self _ _)
    rw [hg]
    show (acc.containsPt p || Geom.empty.containsPt p) = false
    rw [hacc]
    rfl

theorem union_all_empties_contains_false {shapes : List Geom}
    (hsh : ∀ g ∈ shapes, g = Geom.empty) (p : ℚ × ℚ) :
    (union_all shapes).containsPt p = false :=
  foldl_union_contains_false shapes Geom.empty p rfl hsh

theorem maskedRow_all (g : Geom) (la : ℚ) :
    ∀ (lon : List ℚ) (row : List Cell), row.length = lon.length →
      (∀ lo ∈ lon, g.containsPt (lo, la) = true) →
      ((lon.zip row).map fun q => maskedCellAt g la q.1 q.2) = row := by
  intro lon
  induction lon with
  | nil =>
    intro row h _
    rw [List.length_nil] at h
    rw [List.length_eq_zero.mp h]
    rfl
  | cons lo los ih =>
    intro row h hall
    cases row with
    | nil => simp at h
    | cons c cs =>
      have hlen : cs.length = los.length := by simpa using h
      rw [List.zip_cons_cons, List.map_cons]
      rw [ih cs hlen (fun x hx => hall x (List.mem_cons_of_mem _ hx))]
      show maskedCellAt g la lo c :: cs = c :: cs
      unfold maskedCellAt
      rw [hall lo (List.mem_cons_self _ _)]
      rfl

theorem maskedSlice_full (g : Geom) (lon : List ℚ) :
    ∀ (lat : List ℚ) (slice : List (List Cell)), slice.length = lat.length →
      (∀ row ∈ slice, row.length = lon.length) →
      (∀ la ∈ lat, ∀ lo ∈ lon, g.containsPt (lo, la) = true) →
      maskedSlice g lat lon slice = slice.flatMap id := by
  intro lat
  induction lat with
  | nil =>
    intro slice h _ _
    rw [List.length_nil] at h
    rw [List.length_eq_zero.mp h]
    rfl
  | cons la las ih =>
    intro slice h hrow hall
    cases slice with
    | nil => simp at h
    | cons s ss =>
      have hlen : ss.length = las.length := by simpa using h
      have hhead := maskedRow_all g la lon s (hrow s (List.mem_cons_self _ _))
        (hall la (List.mem_cons_self _ _))
      have htail := ih ss hlen (fun r hr => hrow r (List.mem_cons_of_mem _ hr))
        (fun x hx => hall x (List.mem_cons_of_mem _ hx))
      unfold maskedSlice at htail ⊢
      rw [List.zip_cons_cons, List.flatMap_cons, List.flatMap_cons]
      rw [show (id s : List Cell) = s from rfl]
      rw [htail, hhead]

end MerraRepo

/-! ## Claim theorems -/

/-- C4: for a gridded dataset with lat axis [10,20,30] and lon axis
[10,20,30], nearest-point extraction `grid_data` with target (lat=18, lon=22)
returns the data at the grid cell lat=20, lon=20 (indices 1 and 1), with the
nearest match computed independently per axis. -/
theorem grid_data_nearest_scenario (ds : MerraRepo.Dataset)
    (hla : ds.lat = [10, 20, 30]) (hlo : ds.lon = [10, 20, 30]) :
    MerraRepo.grid_data ds 18 22 =
      .ok ⟨20, 20, ds.vars.map fun nd =>
        (nd.1, nd.2.map fun slice => (slice.getD 1 []).getD 1 none)⟩ := by
  unfold MerraRepo.grid_data
  rw [hla, hlo]
  rw [show MerraRepo.nearestIdx [10, 20, 30] 18 = some 1 by
    norm_num [MerraRepo.nearestIdx, MerraRepo.nearestIdxGo]]
  rw [show MerraRepo.nearestIdx [10, 20, 30] 22 = some 1 by
    norm_num [MerraRepo.nearestIdx, MerraRepo.nearestIdxGo]]
  rfl

theorem grid_data_nearest_scenario_witness :
    MerraRepo.dsGrid3.lat = [10, 20, 30] ∧ MerraRepo.dsGrid3.lon = [10, 20, 30] ∧
      MerraRepo.grid_data MerraRepo.dsGrid3 18 22 =
        .ok ⟨20, 20, MerraRepo.dsGrid3.vars.map fun nd =>
          (nd.1, nd.2.map fun slice => (slice.getD 1 []).getD 1 none)⟩ :=
  ⟨rfl, rfl, grid_data_nearest_scenario MerraRepo.dsGrid3 rfl rfl⟩

/-- C5: for every gridded dataset and polygon whose interior contains no
grid-cell center, `mean_polygon` returns NaN at every time step — neither
zero nor an error. -/
theorem mean_polygon_no_contained_center (ds : MerraRepo.Dataset) (v : String)
    (data : List (List (List MerraRepo.Cell))) (shapes : List MerraRepo.Geom)
    (hv : ds.vars.lookup v = some data)
    (hno : ∀ la ∈ ds.lat, ∀ lo ∈ ds.lon,
      (MerraRepo.union_all shapes).containsPt (lo, la) = false) :
    MerraRepo.mean_polygon ds v shapes = .ok (data.map fun _ => none) :=
  MerraRepo.mean_polygon_outside_aux hv hno

theorem mean_polygon_no_contained_center_witness :
    MerraRepo.dsCell10.vars.lookup "T" = some [[[some 3]]] ∧
      (∀ la ∈ MerraRepo.dsCell10.lat, ∀ lo ∈ MerraRepo.dsCell10.lon,
        (MerraRepo.union_all [MerraRepo.Geom.rect 0 0 5 5]).containsPt (lo, la) = false) ∧
      MerraRepo.mean_polygon MerraRepo.dsCell10 "T" [MerraRepo.Geom.rect 0 0 5 5] =
        .ok (([[[some 3]]] : List (List (List MerraRepo.Cell))).map fun _ => none) :=
  ⟨rfl, by decide,
    mean_polygon_no_contained_center MerraRepo.dsCell10 "T" [[[some 3]]]
      [MerraRepo.Geom.rect 0 0 5 5] rfl (by decide)⟩

/-- C7 counterexample: called on an empty shape collection, `mean_polygon`
does not raise — the union of no shapes is the empty geometry and an
all-missing result is returned. -/
theorem mean_polygon_empty_shapes_returns :
    MerraRepo.mean_polygon MerraRepo.dsCell0 "v" [] = .ok [none] := rfl

/-- C7 amended: when the supplied shape collection is empty or contains only
empty geometry, `mean_polygon` returns an all-missing result for every time
step instead of failing. -/
theorem mean_polygon_empty_shapes_all_missing (ds : MerraRepo.Dataset)
    (v : String) (data : List (List (List MerraRepo.Cell)))
    (shapes : List MerraRepo.Geom)
    (hv : ds.vars.lookup v = some data)
    (hsh : ∀ g ∈ shapes, g = MerraRepo.Geom.empty) :
    MerraRepo.mean_polygon ds v shapes = .ok (data.map fun _ => none) :=
  MerraRepo.mean_polygon_outside_aux hv
    (fun la _ lo _ => MerraRepo.union_all_empties_contains_false hsh (lo, la))

theorem mean_polygon_empty_shapes_all_missing_witness :
    MerraRepo.dsCell0.vars.lookup "v" = some [[[some 3]]] ∧
      (∀ g ∈ ([] : List MerraRepo.Geom), g = MerraRepo.Geom.empty) ∧
      MerraRepo.mean_polygon MerraRepo.dsCell0 "v" [] =
        .ok (([[[some 3]]] : List (List (List MerraRepo.Cell))).map fun _ => none) :=
  ⟨rfl, by simp,
    mean_polygon_empty_shapes_all_missing MerraRepo.dsCell0 "v" [[[some 3]]] []
      rfl (by simp)⟩

/-- C8: for every gridded dataset and polygon whose interior contains all
grid-cell centers, `mean_polygon` equals the unmasked spatial mean of the
variable at every time step. -/
theorem mean_polygon_full_cover (ds : MerraRepo.Dataset) (v : String)
    (data : List (List (List MerraRepo.Cell))) (shapes : List MerraRepo.Geom)
    (hv : ds.vars.lookup v = some data)
    (hrect : ∀ slice ∈ data, slice.length = ds.lat.length ∧
      ∀ row ∈ slice, row.length = ds.lon.length)
    (hall : ∀ la ∈ ds.lat, ∀ lo ∈ ds.lon,
      (MerraRepo.union_all shapes).containsPt (lo, la) = true) :
    MerraRepo.mean_polygon ds v shapes = .ok (MerraRepo.spatialMean data) := by
  unfold MerraRepo.mean_polygon
  rw [hv]
  simp only []
  congr 1
  unfold MerraRepo.spatialMean
  apply List.map_congr_left
  intro slice hs
  unfold MerraRepo.spatialMeanSlice
  rw [MerraRepo.maskedSlice_full _ _ _ slice (hrect slice hs).1 (hrect slice hs).2 hall]

theorem mean_polygon_full_cover_witness :
    MerraRepo.dsGrid2.vars.lookup "T" = some [[[some 1, some 2], [some 3, some 5]]] ∧
      (∀ slice ∈ ([[[some 1, some 2], [some 3, some 5]]] :
          List (List (List MerraRepo.Cell))),
        slice.length = MerraRepo.dsGrid2.lat.length ∧
          ∀ row ∈ slice, row.length = MerraRepo.dsGrid2.lon.length) ∧
      (∀ la ∈ MerraRepo.dsGrid2.lat, ∀ lo ∈ MerraRepo.dsGrid2.lon,
        (MerraRepo.union_all [MerraRepo.Geom.rect 0 0 100 100]).containsPt (lo, la) = true) ∧
      MerraRepo.mean_polygon MerraRepo.dsGrid2 "T" [MerraRepo.Geom.rect 0 0 100 100] =
        .ok (MerraRepo.spatialMean [[[some 1, some 2], [some 3, some 5]]]) :=
  ⟨rfl, by decide, by decide,
    mean_polygon_full_cover MerraRepo.dsGrid2 "T"
      [[[some 1, some 2], [some 3, some 5]]] [MerraRepo.Geom.rect 0 0 100 100]
      rfl (by decide) (by decide)⟩

/-- C10: a grid point lying exactly on the boundary of the (unioned) polygon
is not contained (containment is strict-interior), its masked cell is set to
missing, and a missing cell is excluded from the mean. -/
theorem mean_polygon_boundary_excluded (x1 y1 x2 y2 la lo : ℚ)
    (h : MerraRepo.onRectBoundary x1 y1 x2 y2 (lo, la)) :
    (MerraRepo.union_all [MerraRepo.Geom.rect x1 y1 x2 y2]).containsPt (lo, la) = false ∧
      ∀ c : MerraRepo.Cell,
        MerraRepo.maskedCellAt (MerraRepo.union_all [MerraRepo.Geom.rect x1 y1 x2 y2])
          la lo c = none ∧
        ∀ rest : List MerraRepo.Cell,
          MerraRepo.meanCells
            (MerraRepo.maskedCellAt
              (MerraRepo.union_all [MerraRepo.Geom.rect x1 y1 x2 y2]) la lo c :: rest) =
          MerraRepo.meanCells rest := by
  obtain ⟨hx1, hx2, hy1, hy2, hedge⟩ := h
  have hrect : (MerraRepo.Geom.rect x1 y1 x2 y2).containsPt (lo, la) = false := by
    show (decide (x1 < lo) && decide (lo < x2) && decide (y1 < la) && decide (la < y2)) = false
    rcases hedge with he | he | he | he
    · simp only at he
      rw [he]
      simp [lt_irrefl]
    · simp only at he
      rw [he]
      simp [lt_irrefl]
    · simp only at he
      rw [he]
      simp [lt_irrefl]
    · simp only at he
      rw [he]
      simp [lt_irrefl]
  have hu : (MerraRepo.union_all [MerraRepo.Geom.rect x1 y1 x2 y2]).containsPt (lo, la)
      = false := by
    show (MerraRepo.Geom.empty.containsPt (lo, la)
      || (MerraRepo.Geom.rect x1 y1 x2 y2).containsPt (lo, la)) = false
    rw [hrect]
    rfl
  refine ⟨hu, fun c => ?_⟩
  have hm : MerraRepo.maskedCellAt
      (MerraRepo.union_all [MerraRepo.Geom.rect x1 y1 x2 y2]) la lo c = none := by
    unfold MerraRepo.maskedCellAt
    rw [hu]
    simp
  refine ⟨hm, fun rest => ?_⟩
  rw [hm]
  exact MerraRepo.meanCells_cons_none rest

theorem mean_polygon_boundary_excluded_witness :
    MerraRepo.onRectBoundary 0 0 10 10 (0, 5) ∧
      ((MerraRepo.union_all [MerraRepo.Geom.rect 0 0 10 10]).containsPt (0, 5) = false ∧
        ∀ c : MerraRepo.Cell,
          MerraRepo.maskedCellAt (MerraRepo.union_all [MerraRepo.Geom.rect 0 0 10 10])
            5 0 c = none ∧
          ∀ rest : List MerraRepo.Cell,
            MerraRepo.meanCells
              (MerraRepo.maskedCellAt
                (MerraRepo.union_all [MerraRepo.Geom.rect 0 0 10 10]) 5 0 c :: rest) =
            MerraRepo.meanCells rest) :=
  ⟨by constructor <;> norm_num,
    mean_polygon_boundary_excluded 0 0 10 10 5 0 (by constructor <;> norm_num)⟩

/-- C2 counterexample: in `pm`, the reading at timestamp 2 has value -5 and
fails the range filter; its row is removed outright, so the output has no
entry at timestamp 2 — it is not kept and forward-filled in place. -/
theorem pm_removed_row_timestamp_absent :
    AirRepo.pm [AirRepo.dfMidInvalid] false =
        .ok ⟨[some 1, some 3], ["pm2.5"], [[some 100], [some 300]]⟩ ∧
      some 2 ∉ ([some 1, some 3] : List AirRepo.Cell) := by
  constructor
  · rfl
  · decide

/-- C2 amended: a row whose value fails the range filter is removed entirely.
Every timestamp of the output index is the datetime of some concatenated row
that passed the filter, so a removed row's timestamp appears in the output
only if a surviving row carries the same timestamp. -/
theorem pm_index_from_surviving_rows (dfs : List AirRepo.DataFrame)
    (drop : Bool) (res : AirRepo.PMResult) (t : ℚ)
    (h : AirRepo.pm dfs drop = .ok res) (ht : some t ∈ res.index) :
    ∃ row ∈ (AirRepo.concatDFs dfs).rows,
      (∃ q, AirRepo.cellAt (AirRepo.concatDFs dfs).columns row "value" = some q ∧
        0 < q ∧ q < 900) ∧
      AirRepo.cellAt (AirRepo.concatDFs dfs).columns row "datetime" = some t := by
  obtain ⟨df1, hd0, hv, hsi⟩ := AirRepo.pm_ok_df1 h
  have hd : df1 = AirRepo.concatDFs dfs ∨
      AirRepo.dropColumns (AirRepo.concatDFs dfs) = .ok df1 := by
    cases hd0 with
    | inl hl => exact Or.inl hl.2
    | inr hr => exact Or.inr hr.2
  obtain ⟨hdt, hidx, hcols, hrows⟩ := AirRepo.setIndex_ok hsi
  have hRc : (AirRepo.renameValue
      (AirRepo.ffillDF ⟨df1.columns, AirRepo.survivorRows df1⟩)).columns
      = df1.columns.map (fun c => if c == "value" then "pm2.5" else c) := rfl
  have hRr : (AirRepo.renameValue
      (AirRepo.ffillDF ⟨df1.columns, AirRepo.survivorRows df1⟩)).rows
      = AirRepo.ffillGo (df1.columns.map fun _ => none)
          (AirRepo.survivorRows df1) := rfl
  rw [hRc, hRr] at hidx
  rw [hidx] at ht
  obtain ⟨row5, hrow5, hres⟩ := List.mem_map.mp ht
  rw [AirRepo.cellAt_renamed_other df1.columns row5 "datetime" (by decide) (by decide)]
    at hres
  cases hfd : df1.columns.findIdx? (· == "datetime") with
  | none =>
    exfalso
    unfold AirRepo.cellAt at hres
    rw [hfd] at hres
    exact absurd hres (by simp)
  | some idt =>
    have h5 : row5.getD idt none = some t := by
      unfold AirRepo.cellAt at hres
      rw [hfd] at hres
      exact hres
    cases AirRepo.ffillGo_some_src (AirRepo.survivorRows df1)
        (df1.columns.map fun _ => none) row5 hrow5 idt t h5 with
    | inr hl =>
      rw [AirRepo.getD_map_none] at hl
      exact absurd hl (by simp)
    | inl hsrc =>
      obtain ⟨r3, hr3, h3⟩ := hsrc
      have hdt3 : AirRepo.cellAt df1.columns r3 "datetime" = some t := by
        unfold AirRepo.cellAt
        rw [hfd]
        exact h3
      obtain ⟨hmem3, hk1, hk2⟩ := AirRepo.survivorRows_sub hr3
      obtain ⟨q, hq, h01, h900⟩ := AirRepo.valueKeep_range hk1 hk2
      cases hd with
      | inl hl =>
        rw [hl] at hmem3 hq hdt3
        exact ⟨r3, hmem3, ⟨q, hq, h01, h900⟩, hdt3⟩
      | inr hr =>
        obtain ⟨_, hcols1, hrows1⟩ := AirRepo.dropColumns_ok hr
        rw [hrows1] at hmem3
        obtain ⟨row0, hrow0, hres0⟩ := List.mem_map.mp hmem3
        have hrect0 := AirRepo.concat_rect dfs row0 hrow0
        have hvalue : AirRepo.cellAt df1.columns r3 "value" =
            AirRepo.cellAt (AirRepo.concatDFs dfs).columns row0 "value" := by
          rw [← hres0, hcols1]
          exact AirRepo.cellAt_restrictRow _ (AirRepo.concatDFs dfs).columns row0
            hrect0 "value" (by decide)
        have hdtv : AirRepo.cellAt df1.columns r3 "datetime" =
            AirRepo.cellAt (AirRepo.concatDFs dfs).columns row0 "datetime" := by
          rw [← hres0, hcols1]
          exact AirRepo.cellAt_restrictRow _ (AirRepo.concatDFs dfs).columns row0
            hrect0 "datetime" (by decide)
        refine ⟨row0, hrow0, ⟨q, ?_, h01, h900⟩, ?_⟩
        · rw [← hvalue]; exact hq
        · rw [← hdtv]; exact hdt3

theorem pm_index_from_surviving_rows_witness :
    AirRepo.pm [AirRepo.dfMidInvalid] false =
        .ok ⟨[some 1, some 3], ["pm2.5"], [[some 100], [some 300]]⟩ ∧
      some 1 ∈ (AirRepo.PMResult.mk [some 1, some 3] ["pm2.5"]
        [[some 100], [some 300]]).index ∧
      ∃ row ∈ (AirRepo.concatDFs [AirRepo.dfMidInvalid]).rows,
        (∃ q, AirRepo.cellAt (AirRepo.concatDFs [AirRepo.dfMidInvalid]).columns
          row "value" = some q ∧ 0 < q ∧ q < 900) ∧
        AirRepo.cellAt (AirRepo.concatDFs [AirRepo.dfMidInvalid]).columns
          row "datetime" = some 1 :=
  ⟨by rfl, by decide,
    pm_index_from_surviving_rows [AirRepo.dfMidInvalid] false _ 1 (by rfl) (by decide)⟩

/-- C3 counterexample: with retention enabled (drop=False), the `units` cell
of the second surviving row is missing in the input but forward-filled to 7
in the output — retained columns are not returned with all original cell
values unchanged. -/
theorem pm_retained_col_changed :
    AirRepo.cellAt AirRepo.dfUnitsGap.columns (AirRepo.dfUnitsGap.rows.getD 1 [])
        "units" = none ∧
      AirRepo.pm [AirRepo.dfUnitsGap] false =
        .ok ⟨[some 1, some 2], ["pm2.5", "units"],
             [[some 100, some 7], [some 200, some 7]]⟩ :=
  ⟨rfl, rfl⟩

/-- C3 amended: with retention enabled (drop=False), every column other than
the value/timestamp columns appears in the output, and each cell of a
surviving row that was non-missing is returned unchanged (missing cells are
instead forward-filled). -/
theorem pm_retained_nonmissing_preserved (dfs : List AirRepo.DataFrame)
    (res : AirRepo.PMResult) (c : String) (k : ℕ) (q : ℚ)
    (h : AirRepo.pm dfs false = .ok res)
    (hcv : c ≠ "value") (hcp : c ≠ "pm2.5") (hcd : c ≠ "datetime")
    (hc : c ∈ (AirRepo.concatDFs dfs).columns)
    (hq : AirRepo.cellAt (AirRepo.concatDFs dfs).columns
      ((AirRepo.survivorRows (AirRepo.concatDFs dfs)).getD k []) c = some q) :
    c ∈ res.columns ∧
      AirRepo.cellAt res.columns (res.rows.getD k []) c = some q := by
  obtain ⟨df1, hd0, hv, hsi⟩ := AirRepo.pm_ok_df1 h
  have hdf1 : df1 = AirRepo.concatDFs dfs := by
    cases hd0 with
    | inl hl => exact hl.2
    | inr hr => exact absurd hr.1 (by simp)
  subst hdf1
  obtain ⟨hdt, hidx, hcols, hrows⟩ := AirRepo.setIndex_ok hsi
  have hRc : (AirRepo.renameValue
      (AirRepo.ffillDF ⟨(AirRepo.concatDFs dfs).columns,
        AirRepo.survivorRows (AirRepo.concatDFs dfs)⟩)).columns
      = (AirRepo.concatDFs dfs).columns.map
          (fun c0 => if c0 == "value" then "pm2.5" else c0) := rfl
  have hRr : (AirRepo.renameValue
      (AirRepo.ffillDF ⟨(AirRepo.concatDFs dfs).columns,
        AirRepo.survivorRows (AirRepo.concatDFs dfs)⟩)).rows
      = AirRepo.ffillGo ((AirRepo.concatDFs dfs).columns.map fun _ => none)
          (AirRepo.survivorRows (AirRepo.concatDFs dfs)) := rfl
  rw [hRc] at hcols
  rw [hRc, hRr] at hrows
  constructor
  · rw [hcols]
    apply List.mem_filter.mpr
    constructor
    · apply List.mem_map.mpr
      exact ⟨c, hc, by simp [beq_eq_false_iff_ne.mpr hcv]⟩
    · simp [beq_eq_false_iff_ne.mpr hcd]
  · have hk : k < (AirRepo.survivorRows (AirRepo.concatDFs dfs)).length := by
      by_contra hx
      rw [List.getD_eq_getElem?_getD, List.getElem?_eq_none (by omega)] at hq
      simp [AirRepo.cellAt_nil] at hq
    have hF : k < (AirRepo.ffillGo ((AirRepo.concatDFs dfs).columns.map fun _ => none)
        (AirRepo.survivorRows (AirRepo.concatDFs dfs))).length := by
      rw [AirRepo.ffillGo_length]; exact hk
    rw [hcols, hrows, AirRepo.getD_map_rows _ _ k hF]
    obtain ⟨ic, hic⟩ := AirRepo.findIdx_some_of_mem hc
    have hq' : ((AirRepo.survivorRows (AirRepo.concatDFs dfs)).getD k []).getD ic none
        = some q := by
      unfold AirRepo.cellAt at hq
      rw [hic] at hq
      exact hq
    have hSrect : ∀ r ∈ AirRepo.survivorRows (AirRepo.concatDFs dfs),
        r.length = (AirRepo.concatDFs dfs).columns.length :=
      fun r hr => AirRepo.concat_rect dfs r (AirRepo.survivorRows_sub hr).1
    have h5 : ((AirRepo.ffillGo ((AirRepo.concatDFs dfs).columns.map fun _ => none)
        (AirRepo.survivorRows (AirRepo.concatDFs dfs))).getD k []).getD ic none
        = some q :=
      AirRepo.ffillGo_getD (AirRepo.concatDFs dfs).columns.length
        (AirRepo.survivorRows (AirRepo.concatDFs dfs)) _ k ic q (by simp) hSrect hq'
    have hmem5 : (AirRepo.ffillGo ((AirRepo.concatDFs dfs).columns.map fun _ => none)
        (AirRepo.survivorRows (AirRepo.concatDFs dfs))).getD k []
        ∈ AirRepo.ffillGo ((AirRepo.concatDFs dfs).columns.map fun _ => none)
            (AirRepo.survivorRows (AirRepo.concatDFs dfs)) := by
      rw [List.getD_eq_getElem _ _ hF]
      exact List.getElem_mem _
    obtain ⟨hlen5, -⟩ := AirRepo.ffillGo_mem (AirRepo.concatDFs dfs).columns.length
      (AirRepo.survivorRows (AirRepo.concatDFs dfs)) _ (by simp) hSrect _ hmem5
    rw [AirRepo.cellAt_restrictRow _ _ _ (by rw [hlen5]; simp) c
      (by simp [beq_eq_false_iff_ne.mpr hcd])]
    rw [AirRepo.cellAt_renamed_other _ _ c hcv hcp]
    unfold AirRepo.cellAt
    rw [hic]
    exact h5

theorem pm_retained_nonmissing_preserved_witness :
    AirRepo.pm [AirRepo.dfUnitsGap] false =
        .ok ⟨[some 1, some 2], ["pm2.5", "units"],
             [[some 100, some 7], [some 200, some 7]]⟩ ∧
      ("units" ≠ "value" ∧ "units" ≠ "pm2.5" ∧ "units" ≠ "datetime") ∧
      "units" ∈ (AirRepo.concatDFs [AirRepo.dfUnitsGap]).columns ∧
      AirRepo.cellAt (AirRepo.concatDFs [AirRepo.dfUnitsGap]).columns
        ((AirRepo.survivorRows (AirRepo.concatDFs [AirRepo.dfUnitsGap])).getD 0 [])
        "units" = some 7 ∧
      ("units" ∈ (AirRepo.PMResult.mk [some 1, some 2] ["pm2.5", "units"]
          [[some 100, some 7], [some 200, some 7]]).columns ∧
        AirRepo.cellAt (AirRepo.PMResult.mk [some 1, some 2] ["pm2.5", "units"]
            [[some 100, some 7], [some 200, some 7]]).columns
          ((AirRepo.PMResult.mk [some 1, some 2] ["pm2.5", "units"]
            [[some 100, some 7], [some 200, some 7]]).rows.getD 0 [])
          "units" = some 7) :=
  ⟨by rfl, ⟨by decide, by decide, by decide⟩, by decide, by decide,
    pm_retained_nonmissing_preserved [AirRepo.dfUnitsGap] _ "units" 0 7 (by rfl)
      (by decide) (by decide) (by decide) (by decide) (by decide)⟩

/-- C6: when the file search yields no tables, `pm` raises (pandas
`pd.concat` on an empty list) instead of returning an empty table. -/
theorem pm_no_files_errors (drop : Bool) :
    AirRepo.pm [] drop = .error "ValueError: No objects to concatenate" := rfl

/-- C9: with pruning enabled, `pm` raises a `KeyError` when any column of the
fixed drop list is absent from the concatenated table, instead of skipping
the missing column. -/
theorem pm_missing_drop_col_errors (dfs : List AirRepo.DataFrame) (c : String)
    (hne : dfs ≠ []) (hc : c ∈ AirRepo.drop_cols)
    (hmiss : c ∉ (AirRepo.concatDFs dfs).columns) :
    AirRepo.pm dfs true = .error "KeyError: drop columns not found" := by
  have hall : AirRepo.drop_cols.all
      (fun c0 => (AirRepo.concatDFs dfs).columns.contains c0) = false := by
    apply List.all_eq_false.mpr
    refine ⟨c, hc, ?_⟩
    intro hcon
    exact hmiss (List.elem_iff.mp hcon)
  unfold AirRepo.pm
  rw [if_neg (by simpa [List.isEmpty_iff] using hne)]
  rw [if_pos rfl, AirRepo.dropColumns_err hall]

/-- C1: whenever `pm` returns, every row of the returned table has its
pollutant cell (the `value` column, renamed `pm2.5`) present and strictly
between 0 and 900.  The side condition that no input column is already named
`pm2.5` keeps the renamed column lookup well-defined. -/
theorem pm_value_in_range (dfs : List AirRepo.DataFrame) (drop : Bool)
    (res : AirRepo.PMResult)
    (hp : "pm2.5" ∉ (AirRepo.concatDFs dfs).columns)
    (h : AirRepo.pm dfs drop = .ok res) :
    ∀ row ∈ res.rows, ∃ q, AirRepo.cellAt res.columns row "pm2.5" = some q ∧
      0 < q ∧ q < 900 := by
  obtain ⟨df1, hd0, hv, hsi⟩ := AirRepo.pm_ok_df1 h
  have hd : df1 = AirRepo.concatDFs dfs ∨
      AirRepo.dropColumns (AirRepo.concatDFs dfs) = .ok df1 := by
    cases hd0 with
    | inl hl => exact Or.inl hl.2
    | inr hr => exact Or.inr hr.2
  have hp1 : "pm2.5" ∉ df1.columns :=
    fun hmem => hp (AirRepo.pm_df1_columns_sub hd _ hmem)
  have hrect1 : AirRepo.RectDF df1 := AirRepo.pm_df1_rect hd
  obtain ⟨hdt, hidx, hcols, hrows⟩ := AirRepo.setIndex_ok hsi
  have hRc : (AirRepo.renameValue
      (AirRepo.ffillDF ⟨df1.columns, AirRepo.survivorRows df1⟩)).columns
      = df1.columns.map (fun c => if c == "value" then "pm2.5" else c) := rfl
  have hRr : (AirRepo.renameValue
      (AirRepo.ffillDF ⟨df1.columns, AirRepo.survivorRows df1⟩)).rows
      = AirRepo.ffillGo (df1.columns.map fun _ => none)
          (AirRepo.survivorRows df1) := rfl
  rw [hRc] at hcols
  rw [hRc, hRr] at hrows
  obtain ⟨iv, hiv⟩ := AirRepo.findIdx_some_of_mem (List.elem_iff.mp hv)
  intro row hrow
  rw [hrows] at hrow
  obtain ⟨row5, hrow5, hres⟩ := List.mem_map.mp hrow
  have hSrect : ∀ r ∈ AirRepo.survivorRows df1, r.length = df1.columns.length :=
    fun r hr => hrect1 r (AirRepo.survivorRows_sub hr).1
  obtain ⟨hlen5, r3, hr3, hpres⟩ :=
    AirRepo.ffillGo_mem df1.columns.length (AirRepo.survivorRows df1)
      (df1.columns.map fun _ => none) (by simp) hSrect row5 hrow5
  obtain ⟨q, hq, hq1, hq2⟩ := AirRepo.survivorRows_value hr3
  refine ⟨q, ?_, hq1, hq2⟩
  have hq' : r3.getD iv none = some q := by
    unfold AirRepo.cellAt at hq
    rw [hiv] at hq
    exact hq
  have h5 : row5.getD iv none = some q := hpres iv q hq'
  have hpm : AirRepo.cellAt
      (df1.columns.map fun c => if c == "value" then "pm2.5" else c) row5 "pm2.5"
      = some q := by
    unfold AirRepo.cellAt
    rw [AirRepo.findIdx_renamed_value df1.columns hp1, hiv]
    exact h5
  rw [← hres, hcols]
  rw [AirRepo.cellAt_restrictRow _ _ row5 (by rw [hlen5]; simp) "pm2.5" rfl]
  exact hpm

theorem pm_value_in_range_witness :
    "pm2.5" ∉ (AirRepo.concatDFs [AirRepo.dfOneValid]).columns ∧
      AirRepo.pm [AirRepo.dfOneValid] false =
        .ok ⟨[some 1], ["pm2.5"], [[some 100]]⟩ ∧
      ∀ row ∈ (AirRepo.PMResult.mk [some 1] ["pm2.5"] [[some 100]]).rows,
        ∃ q, AirRepo.cellAt
          (AirRepo.PMResult.mk [some 1] ["pm2.5"] [[some 100]]).columns row "pm2.5" =
            some q ∧ 0 < q ∧ q < 900 :=
  ⟨by decide, by rfl,
    pm_value_in_range [AirRepo.dfOneValid] false _ (by decide) (by rfl)⟩

theorem pm_missing_drop_col_errors_witness :
    [AirRepo.dfOneValid] ≠ ([] : List AirRepo.DataFrame) ∧
      "lat" ∈ AirRepo.drop_cols ∧
      "lat" ∉ (AirRepo.concatDFs [AirRepo.dfOneValid]).columns ∧
      AirRepo.pm [AirRepo.dfOneValid] true = .error "KeyError: drop columns not found" :=
  ⟨by simp, by decide, by decide,
    pm_missing_drop_col_errors [AirRepo.dfOneValid] "lat" (by simp) (by decide)
      (by decide)⟩
